import Mathlib

/-!
Verification development for the `luapls-dev` Lua front end.

The development shallowly embeds the expression parser
(`lua/parser/expression.go`) and the AST data model (`lua/ast/ast.go`).
The `Parser` cursor type, the `token` package, the lexer and the
statement-level parser are not part of the given sources; where a claim
needs them they are modelled from the specification and marked
`Modelled from the spec:` in their doc comments.

Conventions of the embedding:
  * Go interface values that may be `nil` become `Option` values.
  * A Go `panic` becomes the `Except.error` branch of a parse result.
  * Machine integers (`token.Pos`, lengths) are `Nat`; no overflow is
    possible in the quantities involved.
  * The `float64` value of a number literal is not carried (no claim
    inspects it); only the success or failure of the conversion is
    modelled, by `goParseFloatOk`.
  * The mutually recursive parser functions take a `fuel` argument to
    satisfy termination; fuel is consumed on every call, and running out
    of fuel yields a harmless default, which no theorem below relies on.
-/

/-- Token kinds, following the `token.TokenType` constants used by the
parser (`token` package itself is outside the given sources; the set of
constants is taken from their uses in `expression.go` and `ast.go`). -/
inductive TokenType where
  | AND | ASSIGN | CARET | COMMA | CONCAT | END | EOF | EQUAL | FALSE
  | FUNCTION | GEQ | GT | HASH | IDENT | ILLEGAL | LBRACE | LBRACK | LEQ
  | LOCAL | LPAREN | LT | MINUS | NEQ | NOT | NUMBER | OR | PERCENT
  | PLUS | RBRACE | RBRACK | RPAREN | SEMICOLON | SLASH | STAR | STRING
  | TRUE
deriving DecidableEq, Repr

/-- Modelled from the spec: the token package's rendering of a token
type (keyword or operator text; `token.TokenStr`). -/
def tokenStr : TokenType → String
  | .AND => "and"
  | .ASSIGN => "="
  | .CARET => "^"
  | .COMMA => ","
  | .CONCAT => ".."
  | .END => "end"
  | .EOF => "<eof>"
  | .EQUAL => "=="
  | .FALSE => "false"
  | .FUNCTION => "function"
  | .GEQ => ">="
  | .GT => ">"
  | .HASH => "#"
  | .IDENT => "<ident>"
  | .ILLEGAL => "<illegal>"
  | .LBRACE => "\x7b"
  | .LBRACK => "["
  | .LEQ => "<="
  | .LOCAL => "local"
  | .LPAREN => "("
  | .LT => "<"
  | .MINUS => "-"
  | .NEQ => "~="
  | .NOT => "not"
  | .NUMBER => "<number>"
  | .OR => "or"
  | .PERCENT => "%"
  | .PLUS => "+"
  | .RBRACE => "\x7d"
  | .RBRACK => "]"
  | .RPAREN => ")"
  | .SEMICOLON => ";"
  | .SLASH => "/"
  | .STAR => "*"
  | .STRING => "<string>"
  | .TRUE => "true"

/-- `token.Token`: type, literal text and position (`token.Pos` is an
integer byte offset). -/
structure Token where
  ttype : TokenType
  literal : String
  pos : Nat
deriving DecidableEq, Repr

/-- `token.Token.End()`: one past the last byte of the token. -/
def Token.endPos (t : Token) : Nat := t.pos + t.literal.length

/-- `ast.Identifier`: literal text plus start position.  The source
constructs identifiers as `&ast.Identifier{Literal: ...}`, leaving
`StartPos` at its zero value. -/
structure Identifier where
  literal : String
  startPos : Nat
deriving DecidableEq, Repr

mutual
/-- `ast.Expression` variants from `ast.go`.  Fields that hold a Go
interface value which may be `nil` are `Option`s.  The `float64` field
of `NumberLiteral` is omitted (see the header comment). -/
inductive Expression where
  | binary (left : Option Expression) (operator : TokenType)
      (right : Option Expression)
  | unary (operator : TokenType) (right : Option Expression)
      (startPos : Nat)
  | fcall (left : Option Expression) (args : List (Option Expression))
      (endPos : Nat)
  | fexpr (params : List (Option Identifier)) (body : Block)
      (startPos : Nat) (endPos : Nat)
  | ident (id : Identifier)
  | number (literal : String) (startPos : Nat)
  | str (value : String) (startPos : Nat)
  | boolean (value : Bool) (startPos : Nat)
  | table (fields : List TableField) (startPos : Nat) (endPos : Nat)

/-- `ast.TableField`: optional key, value (possibly a `nil` interface),
start position. -/
inductive TableField where
  | mk (key : Option Expression) (value : Option Expression)
      (startPos : Nat)

/-- `ast.Block`: statement list plus start position. -/
inductive Block where
  | mk (stmts : List Statement) (startPos : Nat)

/-- `ast.Statement` variants needed by the claims:
`AssignmentStatement`, `LocalStatement`, `ExpressionStatement`. -/
inductive Statement where
  | assign (vars : List (Option Expression))
      (exps : List (Option Expression))
  | localStmt (names : List (Option Identifier))
      (exps : List (Option Expression)) (startPos : Nat)
  | exprStmt (exp : Option Expression)
end

/-- Structural equality of optional identifiers. -/
def eqIdentO : Option Identifier → Option Identifier → Bool
  | none, none => true
  | some a, some b => a.literal == b.literal && a.startPos == b.startPos
  | _, _ => false

/-- Structural equality of lists of optional identifiers. -/
def eqIdentList : List (Option Identifier) → List (Option Identifier) → Bool
  | [], [] => true
  | a :: as_, b :: bs => eqIdentO a b && eqIdentList as_ bs
  | _, _ => false

mutual
/-- Structural equality of expressions (the derived instance is not
available for this mutual inductive family, so it is written out). -/
def eqExpr : Expression → Expression → Bool
  | .binary l1 o1 r1, .binary l2 o2 r2 =>
      eqExprO l1 l2 && (o1 == o2) && eqExprO r1 r2
  | .unary o1 r1 p1, .unary o2 r2 p2 =>
      (o1 == o2) && eqExprO r1 r2 && p1 == p2
  | .fcall l1 a1 e1, .fcall l2 a2 e2 =>
      eqExprO l1 l2 && eqExprList a1 a2 && e1 == e2
  | .fexpr p1 b1 s1 e1, .fexpr p2 b2 s2 e2 =>
      eqIdentList p1 p2 && eqBlock b1 b2 && s1 == s2 && e1 == e2
  | .ident i1, .ident i2 =>
      i1.literal == i2.literal && i1.startPos == i2.startPos
  | .number l1 p1, .number l2 p2 => l1 == l2 && p1 == p2
  | .str v1 p1, .str v2 p2 => v1 == v2 && p1 == p2
  | .boolean v1 p1, .boolean v2 p2 => v1 == v2 && p1 == p2
  | .table f1 s1 e1, .table f2 s2 e2 =>
      eqFieldList f1 f2 && s1 == s2 && e1 == e2
  | _, _ => false
termination_by structural a _ => a

/-- Structural equality of optional expressions. -/
def eqExprO : Option Expression → Option Expression → Bool
  | none, none => true
  | some a, some b => eqExpr a b
  | _, _ => false
termination_by structural a _ => a

/-- Structural equality of lists of optional expressions. -/
def eqExprList : List (Option Expression) → List (Option Expression) → Bool
  | [], [] => true
  | a :: as_, b :: bs => eqExprO a b && eqExprList as_ bs
  | _, _ => false
termination_by structural a _ => a

/-- Structural equality of table fields. -/
def eqField : TableField → TableField → Bool
  | .mk k1 v1 p1, .mk k2 v2 p2 =>
      eqExprO k1 k2 && eqExprO v1 v2 && p1 == p2
termination_by structural a _ => a

/-- Structural equality of table-field lists. -/
def eqFieldList : List TableField → List TableField → Bool
  | [], [] => true
  | a :: as_, b :: bs => eqField a b && eqFieldList as_ bs
  | _, _ => false
termination_by structural a _ => a

/-- Structural equality of blocks. -/
def eqBlock : Block → Block → Bool
  | .mk s1 p1, .mk s2 p2 => eqStmtList s1 s2 && p1 == p2
termination_by structural a _ => a

/-- Structural equality of statements. -/
def eqStmt : Statement → Statement → Bool
  | .assign v1 e1, .assign v2 e2 => eqExprList v1 v2 && eqExprList e1 e2
  | .localStmt n1 e1 p1, .localStmt n2 e2 p2 =>
      eqIdentList n1 n2 && eqExprList e1 e2 && p1 == p2
  | .exprStmt e1, .exprStmt e2 => eqExprO e1 e2
  | _, _ => false
termination_by structural a _ => a

/-- Structural equality of statement lists. -/
def eqStmtList : List Statement → List Statement → Bool
  | [], [] => true
  | a :: as_, b :: bs => eqStmt a b && eqStmtList as_ bs
  | _, _ => false
termination_by structural a _ => a
end

/-! ## Operator precedence tables (`expression.go` lines 221-280) -/

/-- `operatorPrecedence` constant `LOWEST` (the `iota` block starts the
enum at 1 after the skipped first value). -/
def LOWEST : Nat := 1

/-- `operatorPrecedence` constant `UNARY`. -/
def UNARY : Nat := 8

/-- The `precedences` map; a token type absent from the Go map looks up
as the zero value. -/
def precedences : TokenType → Nat
  | .OR => 2
  | .AND => 3
  | .LT => 4
  | .GT => 4
  | .LEQ => 4
  | .GEQ => 4
  | .NEQ => 4
  | .EQUAL => 4
  | .CONCAT => 5
  | .PLUS => 6
  | .MINUS => 6
  | .STAR => 7
  | .SLASH => 7
  | .PERCENT => 7
  | .NOT => 8
  | .HASH => 8
  | .CARET => 9
  | _ => 0

/-- The `binaryOperators` membership map. -/
def isBinaryOperator : TokenType → Bool
  | .AND => true
  | .CARET => true
  | .CONCAT => true
  | .EQUAL => true
  | .GEQ => true
  | .GT => true
  | .LEQ => true
  | .LT => true
  | .MINUS => true
  | .NEQ => true
  | .OR => true
  | .PERCENT => true
  | .PLUS => true
  | .SLASH => true
  | .STAR => true
  | _ => false

/-- `isRightAssociative`. -/
def isRightAssociative (tok : TokenType) : Bool :=
  tok == .CARET || tok == .CONCAT

/-- The `tableSep` membership map. -/
def tableSep : TokenType → Bool
  | .COMMA => true
  | .SEMICOLON => true
  | _ => false

/-! ## Models of the Go standard-library functions the parser calls -/

/-- Modelled from Go `strconv.ParseBool`: the exact set of accepted
strings. -/
def goParseBool : String → Bool
  | "1" => true
  | "t" => true
  | "T" => true
  | "TRUE" => true
  | "true" => true
  | "True" => true
  | "0" => true
  | "f" => true
  | "F" => true
  | "FALSE" => true
  | "false" => true
  | "False" => true
  | _ => false

/-- The boolean value Go `strconv.ParseBool` returns on an accepted
string. -/
def goParseBoolValue : String → Bool
  | "1" => true
  | "t" => true
  | "T" => true
  | "TRUE" => true
  | "true" => true
  | "True" => true
  | _ => false

/-- ASCII decimal digit test. -/
def isDigitChar (c : Char) : Bool := '0' ≤ c && c ≤ '9'

/-- ASCII hexadecimal digit test. -/
def isHexChar (c : Char) : Bool :=
  isDigitChar c || ('a' ≤ c && c ≤ 'f') || ('A' ≤ c && c ≤ 'F')

/-- Accepts `[eE] [+-]? digits` at the end of a decimal literal. -/
def floatExpTail : List Char → Bool
  | [] => true
  | 'e' :: rest =>
      let rest := match rest with
        | '+' :: r => r
        | '-' :: r => r
        | r => r
      decide (rest ≠ []) && rest.all isDigitChar
  | 'E' :: rest =>
      let rest := match rest with
        | '+' :: r => r
        | '-' :: r => r
        | r => r
      decide (rest ≠ []) && rest.all isDigitChar
  | _ => false

/-- Accepts the decimal mantissa-and-exponent part of a float literal:
`digits [. digits] [exp]`, `digits .` or `. digits [exp]` with at least
one digit overall. -/
def floatMantissa (cs : List Char) : Bool :=
  let intPart := cs.takeWhile isDigitChar
  let rest := cs.dropWhile isDigitChar
  match rest with
  | '.' :: rest2 =>
      let frac := rest2.takeWhile isDigitChar
      let rest3 := rest2.dropWhile isDigitChar
      (decide (intPart ≠ []) || decide (frac ≠ [])) && floatExpTail rest3
  | _ => decide (intPart ≠ []) && floatExpTail rest

/-- Accepts `hexdigits [. hexdigits] [pP] [+-]? digits` after `0x`. -/
def hexMantissa (cs : List Char) : Bool :=
  let intPart := cs.takeWhile isHexChar
  let rest := cs.dropWhile isHexChar
  let core : List Char → Bool := fun tail =>
    match tail with
    | 'p' :: r => (match r with
        | '+' :: r2 => decide (r2 ≠ []) && r2.all isDigitChar
        | '-' :: r2 => decide (r2 ≠ []) && r2.all isDigitChar
        | r2 => decide (r2 ≠ []) && r2.all isDigitChar)
    | 'P' :: r => (match r with
        | '+' :: r2 => decide (r2 ≠ []) && r2.all isDigitChar
        | '-' :: r2 => decide (r2 ≠ []) && r2.all isDigitChar
        | r2 => decide (r2 ≠ []) && r2.all isDigitChar)
    | _ => false
  match rest with
  | '.' :: rest2 =>
      let frac := rest2.takeWhile isHexChar
      let rest3 := rest2.dropWhile isHexChar
      (decide (intPart ≠ []) || decide (frac ≠ [])) && core rest3
  | _ => decide (intPart ≠ []) && core rest

/-- Modelled from Go `strconv.ParseFloat` (64-bit): whether the string
is syntactically a float.  Decimal and hexadecimal forms and the
`inf`/`infinity`/`nan` specials are covered; digit-separating
underscores are omitted (no literal below uses them). -/
def goParseFloatOk (s : String) : Bool :=
  let cs := s.toList
  let cs := match cs with
    | '+' :: r => r
    | '-' :: r => r
    | r => r
  let lower := cs.map Char.toLower
  if lower = ['i', 'n', 'f'] then true
  else if lower = ['i', 'n', 'f', 'i', 'n', 'i', 't', 'y'] then true
  else if lower = ['n', 'a', 'n'] then true
  else
    match cs with
    | '0' :: 'x' :: rest => hexMantissa rest
    | '0' :: 'X' :: rest => hexMantissa rest
    | rest => floatMantissa rest

/-- The double-quote character. -/
def dqChar : Char := Char.ofNat 34

/-- The single-quote character. -/
def sqChar : Char := Char.ofNat 39

/-- Membership in the cutset `"\"'"` of the `strings.Trim` call in
`parseStringLiteral`. -/
def isQuoteChar (c : Char) : Bool := c == dqChar || c == sqChar

/-- Modelled from Go `strings.Trim(s, "\"'")`: remove every leading and
every trailing character belonging to the cutset. -/
def goTrimQuotes (s : String) : String :=
  ⟨(((s.toList.dropWhile isQuoteChar).reverse.dropWhile
      isQuoteChar).reverse)⟩

/-! ## The parser cursor (`Parser` struct, modelled from the spec) -/

/-- Modelled from the spec: the per-parse state of the `Parser` — the
remaining token stream (the current token is its head; past its end the
cursor reads the end-of-input token) and the accumulated diagnostic
list `p.errors`. -/
structure PState where
  toks : List Token
  errors : List String
deriving DecidableEq, Repr

/-- The end-of-input sentinel token the cursor yields once the stream
is exhausted. -/
def eofTok : Token := ⟨.EOF, "", 0⟩

/-- `p.tok`, the current token. -/
def PState.cur (st : PState) : Token := st.toks.headD eofTok

/-- `p.next()`: advance the cursor one token. -/
def PState.advance (st : PState) : PState := ⟨st.toks.tail, st.errors⟩

/-- `p.errors = append(p.errors, msg)`. -/
def PState.addError (st : PState) (m : String) : PState :=
  ⟨st.toks, st.errors ++ [m]⟩

/-- `p.tokIs(t)`. -/
def PState.tokIs (st : PState) (t : TokenType) : Bool :=
  st.cur.ttype == t

/-- Modelled from the spec: `p.invalidTokenError(expected, got)`
renders the "expected X, found Y" diagnostic. -/
def invalidTokenMsg (expected got : TokenType) : String :=
  "expected " ++ tokenStr expected ++ ", found " ++ tokenStr got

/-- `token.Token.String()`, used in the unparseable-expression
diagnostic (modelled from the spec: a human-readable token rendering). -/
def Token.toStr (t : Token) : String :=
  tokenStr t.ttype ++ " " ++ t.literal

/-- The diagnostic `parseExpression` records on a token that cannot
start an expression. -/
def unparseableMsg (t : Token) : String :=
  "unable to parse unary expression for token: " ++ t.toStr

/-- The diagnostic `parseNumberLiteral` records on a failed
`strconv.ParseFloat`. -/
def numberErrMsg (lit : String) : String :=
  "could not parse " ++ "\"" ++ lit ++ "\""

/-- Modelled from the spec: `p.expect(kind)` consumes the current token
when it matches, and otherwise records the invalid-token diagnostic
without consuming. -/
def PState.expect (st : PState) (t : TokenType) : PState :=
  if st.cur.ttype = t then st.advance
  else st.addError (invalidTokenMsg t st.cur.ttype)

/-- `p.tokPrecedence()`. -/
def PState.tokPrecedence (st : PState) : Nat := precedences st.cur.ttype

/-- A parse result: `Except.error` models an escaping Go `panic`,
otherwise the parsed value together with the updated cursor. -/
def PRes (α : Type) : Type := Except String (α × PState)

/-! ## Leaf parse functions (`expression.go`) -/

/-- `parseBooleanLiteral` (lines 127-135): converts the literal with
`strconv.ParseBool` and, per the source comment, "just explodes"
(panics) if the conversion fails. -/
def parseBooleanLiteral (st : PState) : Except String (Expression × PState) :=
  if goParseBool st.cur.literal then
    .ok (.boolean (goParseBoolValue st.cur.literal) 0, st.advance)
  else
    .error ("panic: ParseBool: parsing " ++ st.cur.literal)

/-- `parseIdentifier` (lines 137-146): builds the identifier when the
current token is an identifier, records the invalid-token diagnostic
otherwise, and advances the cursor in both cases.  `StartPos` is not
set by the source and stays zero. -/
def parseIdentifier (st : PState) : Option Identifier × PState :=
  if st.cur.ttype = .IDENT then
    (some ⟨st.cur.literal, 0⟩, st.advance)
  else
    (none, (st.addError (invalidTokenMsg .IDENT st.cur.ttype)).advance)

/-- `parseNumberLiteral` (lines 148-162): on a failed
`strconv.ParseFloat` records a diagnostic and returns `nil` without
advancing; on success advances and returns the node (with `StartPos`
left at zero). -/
def parseNumberLiteral (st : PState) : Option Expression × PState :=
  if goParseFloatOk st.cur.literal then
    (some (.number st.cur.literal 0), st.advance)
  else
    (none, st.addError (numberErrMsg st.cur.literal))

/-- `parseStringLiteral` (lines 164-170): the value is the token
literal with `strings.Trim(lit, "\"'")` applied; `StartPos` is left at
zero. -/
def parseStringLiteral (st : PState) : Expression × PState :=
  (.str (goTrimQuotes st.cur.literal) 0, st.advance)

/-! ## The mutually recursive parser

Every function consumes one unit of fuel per call; out of fuel, a
default value is returned with the state untouched. -/

mutual
/-- `parseExpression` (lines 12-56): dispatch on the current token to a
primary-expression parser; an unhandled token records a diagnostic and
returns `nil` at once; otherwise a following `(` or string literal
makes the whole call return `parseFunctionCall` directly, and otherwise
the binary-operator loop runs. -/
def parseExpression : Nat → Nat → PState → PRes (Option Expression)
  | 0, _, st => .ok (none, st)
  | fuel + 1, precedence, st =>
    match st.cur.ttype with
    | .FUNCTION =>
        (match parseFunctionExpression fuel st with
         | .error e => .error e
         | .ok (le, st) => afterPrimary fuel precedence (some le) st)
    | .TRUE =>
        (match parseBooleanLiteral st with
         | .error e => .error e
         | .ok (le, st) => afterPrimary fuel precedence (some le) st)
    | .FALSE =>
        (match parseBooleanLiteral st with
         | .error e => .error e
         | .ok (le, st) => afterPrimary fuel precedence (some le) st)
    | .HASH =>
        (match parseUnaryExpression fuel st with
         | .error e => .error e
         | .ok (le, st) => afterPrimary fuel precedence (some le) st)
    | .IDENT =>
        (match parseIdentifier st with
         | (id, st) => afterPrimary fuel precedence (id.map .ident) st)
    | .LPAREN =>
        (match parseSurroundingExpression fuel st with
         | .error e => .error e
         | .ok (le, st) => afterPrimary fuel precedence le st)
    | .MINUS =>
        (match parseUnaryExpression fuel st with
         | .error e => .error e
         | .ok (le, st) => afterPrimary fuel precedence (some le) st)
    | .NOT =>
        (match parseUnaryExpression fuel st with
         | .error e => .error e
         | .ok (le, st) => afterPrimary fuel precedence (some le) st)
    | .NUMBER =>
        (match parseNumberLiteral st with
         | (le, st) => afterPrimary fuel precedence le st)
    | .STRING =>
        (match parseStringLiteral st with
         | (le, st) => afterPrimary fuel precedence (some le) st)
    | .LBRACE =>
        (match parseTableLiteral fuel st with
         | .error e => .error e
         | .ok (le, st) => afterPrimary fuel precedence (some le) st)
    | _ => .ok (none, st.addError (unparseableMsg st.cur))
termination_by structural fuel _ _ => fuel

/-- Lines 40-53 of `parseExpression`: the function-call check (which
returns without entering the loop) followed by the binary-operator
loop. -/
def afterPrimary : Nat → Nat → Option Expression → PState →
    PRes (Option Expression)
  | 0, _, leftExp, st => .ok (leftExp, st)
  | fuel + 1, precedence, leftExp, st =>
    if st.tokIs .LPAREN || st.tokIs .STRING then
      match parseFunctionCall fuel leftExp st with
      | .error e => .error e
      | .ok (c, st) => .ok (some c, st)
    else
      binLoop fuel precedence leftExp st
termination_by structural fuel _ _ _ => fuel

/-- The `for isBinaryOperator(p.tok.Type)` loop of `parseExpression`:
stop unless the next operator (right-associative operators counting one
higher) binds strictly tighter than the caller's precedence. -/
def binLoop : Nat → Nat → Option Expression → PState →
    PRes (Option Expression)
  | 0, _, leftExp, st => .ok (leftExp, st)
  | fuel + 1, precedence, leftExp, st =>
    if isBinaryOperator st.cur.ttype then
      let tokPrecedence := st.tokPrecedence +
        (if isRightAssociative st.cur.ttype then 1 else 0)
      if precedence ≥ tokPrecedence then .ok (leftExp, st)
      else
        match parseBinaryExpression fuel leftExp st with
        | .error e => .error e
        | .ok (le, st) => binLoop fuel precedence (some le) st
    else
      .ok (leftExp, st)
termination_by structural fuel _ _ _ => fuel

/-- `parseBinaryExpression` (lines 81-93): note the right-hand side is
parsed at the operator's unincremented precedence. -/
def parseBinaryExpression : Nat → Option Expression → PState →
    PRes Expression
  | 0, left, st => .ok (.binary left st.cur.ttype none, st)
  | fuel + 1, left, st =>
    let operator := st.cur.ttype
    let precedence := st.tokPrecedence
    let st := st.advance
    match parseExpression fuel precedence st with
    | .error e => .error e
    | .ok (right, st) => .ok (.binary left operator right, st)
termination_by structural fuel _ _ => fuel

/-- `parseExpressionList` (lines 58-67). -/
def parseExpressionList : Nat → PState → PRes (List (Option Expression))
  | 0, st => .ok ([], st)
  | fuel + 1, st =>
    match parseExpression fuel LOWEST st with
    | .error e => .error e
    | .ok (e, st) => expListLoop fuel [e] st
termination_by structural fuel _ => fuel

/-- The comma loop of `parseExpressionList`. -/
def expListLoop : Nat → List (Option Expression) → PState →
    PRes (List (Option Expression))
  | 0, acc, st => .ok (acc, st)
  | fuel + 1, acc, st =>
    if st.tokIs .COMMA then
      let st := st.advance
      match parseExpression fuel LOWEST st with
      | .error e => .error e
      | .ok (e, st) => expListLoop fuel (acc ++ [e]) st
    else
      .ok (acc, st)
termination_by structural fuel _ _ => fuel

/-- `parseNameList` (lines 70-79). -/
def parseNameList : Nat → PState → PRes (List (Option Identifier))
  | 0, st => .ok ([], st)
  | fuel + 1, st =>
    match parseIdentifier st with
    | (i, st) => nameListLoop fuel [i] st

/-- The comma loop of `parseNameList`. -/
def nameListLoop : Nat → List (Option Identifier) → PState →
    PRes (List (Option Identifier))
  | 0, acc, st => .ok (acc, st)
  | fuel + 1, acc, st =>
    if st.tokIs .COMMA then
      let st := st.advance
      match parseIdentifier st with
      | (i, st) => nameListLoop fuel (acc ++ [i]) st
    else
      .ok (acc, st)
termination_by structural fuel _ _ => fuel

/-- `parseFunctionExpression` (lines 95-111).  The struct literal sets
only `Params` and `Body`; positions stay zero. -/
def parseFunctionExpression : Nat → PState → PRes Expression
  | 0, st => .ok (.fexpr [] ⟨[], 0⟩ 0 0, st)
  | fuel + 1, st =>
    let st := st.expect .FUNCTION
    let st := st.expect .LPAREN
    match parseNameList fuel st with
    | .error e => .error e
    | .ok (params, st) =>
      let st := st.expect .RPAREN
      match parseBlock fuel st with
      | .error e => .error e
      | .ok (body, st) =>
        let st := st.expect .END
        .ok (.fexpr params body 0 0, st)
termination_by structural fuel _ => fuel

/-- `parseSurroundingExpression` (lines 113-118). -/
def parseSurroundingExpression : Nat → PState → PRes (Option Expression)
  | 0, st => .ok (none, st)
  | fuel + 1, st =>
    let st := st.expect .LPAREN
    match parseExpression fuel LOWEST st with
    | .error e => .error e
    | .ok (exp, st) => .ok (exp, st.expect .RPAREN)
termination_by structural fuel _ => fuel

/-- `parseUnaryExpression` (lines 120-125); `StartPos` stays zero. -/
def parseUnaryExpression : Nat → PState → PRes Expression
  | 0, st => .ok (.unary st.cur.ttype none 0, st)
  | fuel + 1, st =>
    let operator := st.cur.ttype
    let st := st.advance
    match parseExpression fuel UNARY st with
    | .error e => .error e
    | .ok (right, st) => .ok (.unary operator right 0, st)
termination_by structural fuel _ => fuel

/-- `parseTableLiteral` (lines 172-189): one field is parsed
unconditionally before the separator loop; positions stay zero. -/
def parseTableLiteral : Nat → PState → PRes Expression
  | 0, st => .ok (.table [] 0 0, st)
  | fuel + 1, st =>
    let st := st.expect .LBRACE
    match parseTableField fuel st with
    | .error e => .error e
    | .ok (fld, st) =>
      match tableLoop fuel [fld] st with
      | .error e => .error e
      | .ok (fields, st) => .ok (.table fields 0 0, st.expect .RBRACE)
termination_by structural fuel _ => fuel

/-- The `for tableSep[p.tok.Type]` loop of `parseTableLiteral`,
breaking on a trailing separator before `}`. -/
def tableLoop : Nat → List TableField → PState → PRes (List TableField)
  | 0, acc, st => .ok (acc, st)
  | fuel + 1, acc, st =>
    if tableSep st.cur.ttype then
      let st := st.advance
      if st.tokIs .RBRACE then .ok (acc, st)
      else
        match parseTableField fuel st with
        | .error e => .error e
        | .ok (fld, st) => tableLoop fuel (acc ++ [fld]) st
    else
      .ok (acc, st)
termination_by structural fuel _ _ => fuel

/-- `parseTableField` (lines 191-212); `StartPos` stays zero. -/
def parseTableField : Nat → PState → PRes TableField
  | 0, st => .ok (⟨none, none, 0⟩, st)
  | fuel + 1, st =>
    let needClosingBracket := st.tokIs .LBRACK
    let st := if needClosingBracket then st.advance else st
    match parseExpression fuel LOWEST st with
    | .error e => .error e
    | .ok (leftExp, st) =>
      let st := if needClosingBracket then st.expect .RBRACK else st
      if !needClosingBracket &&
          (tableSep st.cur.ttype || st.tokIs .RBRACE) then
        .ok (⟨none, leftExp, 0⟩, st)
      else
        let st := st.expect .ASSIGN
        match parseExpression fuel LOWEST st with
        | .error e => .error e
        | .ok (rightExp, st) => .ok (⟨leftExp, rightExp, 0⟩, st)
termination_by structural fuel _ => fuel

/-- Modelled from the spec: `parseFunctionCall` parses a call argument
list after a primary expression — either a parenthesized
expression list, or the sugar of a single string-literal argument. -/
def parseFunctionCall : Nat → Option Expression → PState →
    PRes Expression
  | 0, left, st => .ok (.fcall left [] 0, st)
  | fuel + 1, left, st =>
    if st.cur.ttype = .STRING then
      let ep := st.cur.endPos
      match parseStringLiteral st with
      | (s, st) => .ok (.fcall left [some s] ep, st)
    else
      let st := st.expect .LPAREN
      if st.tokIs .RPAREN then
        let ep := st.cur.endPos
        .ok (.fcall left [] ep, st.advance)
      else
        match parseExpressionList fuel st with
        | .error e => .error e
        | .ok (args, st) =>
          let ep := st.cur.endPos
          .ok (.fcall left args ep, st.expect .RPAREN)
termination_by structural fuel _ _ => fuel

/-- Modelled from the spec: `ParseBlock` parses the statement sequence
up to end-of-input or a block-closing `end`, recording the block's
start position from the current token. -/
def parseBlock : Nat → PState → PRes Block
  | 0, st => .ok (⟨[], 0⟩, st)
  | fuel + 1, st => stmtLoop fuel [] st.cur.pos st
termination_by structural fuel _ => fuel

/-- Modelled from the spec: the statement loop of `ParseBlock`; after a
statement parse that consumed nothing, one token is skipped so that
recovery resumes at the next plausible statement boundary. -/
def stmtLoop : Nat → List Statement → Nat → PState → PRes Block
  | 0, acc, startPos, st => .ok (⟨acc, startPos⟩, st)
  | fuel + 1, acc, startPos, st =>
    if st.cur.ttype = .EOF ∨ st.cur.ttype = .END then
      .ok (⟨acc, startPos⟩, st)
    else
      match parseStatement fuel st with
      | .error e => .error e
      | .ok (s, st2) =>
        let st3 := if st2.toks.length = st.toks.length
          then st2.advance else st2
        stmtLoop fuel (acc ++ [s]) startPos st3
termination_by structural fuel _ _ _ => fuel

/-- Modelled from the spec: statement dispatch on the current token —
`local` declarations, and otherwise the assignment-or-call form, which
parses a prefix expression and decides by the following token whether
an assignment target list follows. -/
def parseStatement : Nat → PState → PRes Statement
  | 0, st => .ok (.exprStmt none, st)
  | fuel + 1, st =>
    if st.cur.ttype = .LOCAL then parseLocalStatement fuel st
    else
      match parseExpression fuel LOWEST st with
      | .error e => .error e
      | .ok (e, st) =>
        if st.tokIs .ASSIGN then
          let st := st.advance
          match parseExpressionList fuel st with
          | .error e => .error e
          | .ok (exps, st) => .ok (.assign [e] exps, st)
        else
          .ok (.exprStmt e, st)
termination_by structural fuel _ => fuel

/-- Modelled from the spec: a `local` declaration — name list, then an
optional `=`-introduced initializer list; the statement's start
position is the `local` keyword's position. -/
def parseLocalStatement : Nat → PState → PRes Statement
  | 0, st => .ok (.localStmt [] [] 0, st)
  | fuel + 1, st =>
    let startPos := st.cur.pos
    let st := st.advance
    match parseNameList fuel st with
    | .error e => .error e
    | .ok (names, st) =>
      if st.tokIs .ASSIGN then
        let st := st.advance
        match parseExpressionList fuel st with
        | .error e => .error e
        | .ok (exps, st) => .ok (.localStmt names exps startPos, st)
      else
        .ok (.localStmt names [] startPos, st)
termination_by structural fuel _ => fuel
end

/-! ## Node positions (`ast.go`)

Calling `Pos()`/`End()` on a `nil` Go interface value panics; the
embedding returns `none` there.  Go's `len` on the ASCII strings
involved coincides with `String.length`. -/

mutual
/-- `Node.Pos()` for expressions. -/
def exprPos : Expression → Option Nat
  | .binary l _ _ => optExprPos l
  | .unary _ _ p => some p
  | .fcall l _ _ => optExprPos l
  | .fexpr _ _ p _ => some p
  | .ident i => some i.startPos
  | .number _ p => some p
  | .str _ p => some p
  | .boolean _ p => some p
  | .table _ p _ => some p
termination_by structural a => a

/-- `Pos()` on a possibly-nil expression. -/
def optExprPos : Option Expression → Option Nat
  | none => none
  | some e => exprPos e
termination_by structural a => a
end

mutual
/-- `Node.End()` for expressions. -/
def exprEnd : Expression → Option Nat
  | .binary _ _ r => optExprEnd r
  | .unary _ r _ => optExprEnd r
  | .fcall _ _ ep => some ep
  | .fexpr _ _ _ ep => some ep
  | .ident i => some (i.startPos + i.literal.length)
  | .number lit p => some (p + lit.length)
  | .str v p => some (p + v.length + 2)
  | .boolean v p => some (p + (if v then 4 else 5))
  | .table _ _ ep => some ep
termination_by structural a => a

/-- `End()` on a possibly-nil expression. -/
def optExprEnd : Option Expression → Option Nat
  | none => none
  | some e => exprEnd e
termination_by structural a => a
end

/-- `Identifier.End()` on a possibly-nil identifier. -/
def optIdentEnd : Option Identifier → Option Nat
  | none => none
  | some i => some (i.startPos + i.literal.length)

/-- `Statement.Pos()`:  an `AssignmentStatement` reads
`as.Vars[0].Pos()`, an `ExpressionStatement` its expression's position,
a `LocalStatement` its `StartPos`. -/
def stmtPos : Statement → Option Nat
  | .assign vars _ =>
      (match vars with
       | v :: _ => optExprPos v
       | [] => none)
  | .localStmt _ _ p => some p
  | .exprStmt e => optExprPos e

/-- `Statement.End()`: note `AssignmentStatement.End()` reads
`as.Exps[len(as.Exps)-1].Pos()` — the last expression's *position*. -/
def stmtEnd : Statement → Option Nat
  | .assign _ exps =>
      (match exps.getLast? with
       | some v => optExprPos v
       | none => none)
  | .localStmt names exps _ =>
      (match exps.getLast? with
       | some v => optExprEnd v
       | none =>
         match names.getLast? with
         | some i => optIdentEnd i
         | none => none)
  | .exprStmt e => optExprEnd e

/-- `Block.Pos()`. -/
def blockPos : Block → Nat
  | .mk _ p => p

/-- `Block.End()`: `b.StartPos + b.Stmts[len-1].End()` when the block
is non-empty. -/
def blockEnd : Block → Option Nat
  | .mk stmts p =>
      match stmts.getLast? with
      | some s => (stmtEnd s).map (fun e => p + e)
      | none => some p

/-- The claim's consecutive-statement position-monotonicity check for a
block's statement list: `stmt[i].End() <= stmt[i+1].Pos()` for every
adjacent pair (a `nil` position access fails the check). -/
def stmtsMonotone : List Statement → Bool
  | [] => true
  | [_] => true
  | a :: b :: rest =>
      (match stmtEnd a, stmtPos b with
       | some e, some p => decide (e ≤ p)
       | _, _ => false) && stmtsMonotone (b :: rest)

/-! ## Canonical text rendering (`ast.go` `String()` methods) -/

/-- `nodeListToString`'s separator join. -/
def joinComma : List String → String
  | [] => ""
  | [s] => s
  | s :: rest => s ++ ", " ++ joinComma rest

mutual
/-- `Node.String()` for expressions (`none` models the panic of
rendering a `nil` child). -/
def exprString : Expression → Option String
  | .binary l op r =>
      (match optExprString l, optExprString r with
       | some ls, some rs =>
           some ("(" ++ ls ++ " " ++ tokenStr op ++ " " ++ rs ++ ")")
       | _, _ => none)
  | .unary op r _ =>
      (match optExprString r with
       | some rs => some ("(" ++ tokenStr op ++ rs ++ ")")
       | none => none)
  | .fcall l args _ =>
      (match optExprString l, exprListStrings args with
       | some ls, some ss => some (ls ++ "(" ++ joinComma ss ++ ")")
       | _, _ => none)
  | .fexpr params body _ _ =>
      (match identListStrings params, blockString body with
       | some ps, some bs =>
           some ("function(" ++ joinComma ps ++ ")\n" ++ bs ++ "\nend")
       | _, _ => none)
  | .ident i => some i.literal
  | .number lit _ => some lit
  | .str v _ => some ("\"" ++ v ++ "\"")
  | .boolean v _ => some (if v then "true" else "false")
  | .table fields _ _ =>
      (match fieldListStrings fields with
       | some fs => some ("\x7b " ++ joinComma fs ++ " \x7d")
       | none => none)
termination_by structural a => a

/-- `String()` on a possibly-nil expression. -/
def optExprString : Option Expression → Option String
  | none => none
  | some e => exprString e
termination_by structural a => a

/-- `String()` mapped over an expression list. -/
def exprListStrings : List (Option Expression) → Option (List String)
  | [] => some []
  | e :: rest =>
      (match optExprString e, exprListStrings rest with
       | some s, some ss => some (s :: ss)
       | _, _ => none)
termination_by structural a => a

/-- `String()` mapped over an identifier list. -/
def identListStrings : List (Option Identifier) → Option (List String)
  | [] => some []
  | none :: _ => none
  | some i :: rest =>
      (match identListStrings rest with
       | some ss => some (i.literal :: ss)
       | none => none)
termination_by structural a => a

/-- `TableField.String()`: unkeyed, identifier-keyed and bracket-keyed
forms. -/
def fieldString : TableField → Option String
  | .mk none v _ => optExprString v
  | .mk (some (.ident i)) v _ =>
      (match optExprString v with
       | some vs => some (i.literal ++ " = " ++ vs)
       | none => none)
  | .mk (some k) v _ =>
      (match exprString k, optExprString v with
       | some ks, some vs => some ("[" ++ ks ++ "] = " ++ vs)
       | _, _ => none)
termination_by structural a => a

/-- `String()` mapped over a field list. -/
def fieldListStrings : List TableField → Option (List String)
  | [] => some []
  | f :: rest =>
      (match fieldString f, fieldListStrings rest with
       | some s, some ss => some (s :: ss)
       | _, _ => none)
termination_by structural a => a

/-- `Block.String()`: newline-joined statements, then
`strings.TrimSpace`. -/
def blockString : Block → Option String
  | .mk stmts _ =>
      (match stmtListString stmts with
       | some out => some out.trim
       | none => none)
termination_by structural a => a

/-- The statement-concatenation loop of `Block.String()`. -/
def stmtListString : List Statement → Option String
  | [] => some ""
  | s :: rest =>
      (match stmtString s, stmtListString rest with
       | some a, some b => some (a ++ "\n" ++ b)
       | _, _ => none)
termination_by structural a => a

/-- `Statement.String()` for the embedded statement forms. -/
def stmtString : Statement → Option String
  | .assign vars exps =>
      (match exprListStrings vars, exprListStrings exps with
       | some vs, some es =>
           some (joinComma vs ++ " = " ++ joinComma es)
       | _, _ => none)
  | .localStmt names exps _ =>
      (match identListStrings names, exprListStrings exps with
       | some ns, some es =>
           some ("local " ++ joinComma ns ++ " = " ++ joinComma es)
       | _, _ => none)
  | .exprStmt e => optExprString e
termination_by structural a => a
end

/-! ## The lexer (modelled from the spec)

The lexer is not among the given sources; this model follows §4.1 of
the specification: whitespace skipped, identifiers classified against
the keyword table (restricted here to the keywords the claims
exercise), decimal numeric literals, single- and double-quoted string
literals whose literal text keeps the delimiters, longest-match
operators, and an illegal token for anything unrecognized. -/

/-- Keyword classification for identifier-shaped words. -/
def keywordLookup : String → TokenType
  | "and" => .AND
  | "end" => .END
  | "false" => .FALSE
  | "function" => .FUNCTION
  | "local" => .LOCAL
  | "not" => .NOT
  | "or" => .OR
  | "true" => .TRUE
  | _ => .IDENT

/-- Identifier start characters. -/
def isIdentStart (c : Char) : Bool := c.isAlpha || c == '_'

/-- Identifier continuation characters. -/
def isIdentChar (c : Char) : Bool := c.isAlphanum || c == '_'

/-- Whitespace characters the lexer skips. -/
def isSpaceChar (c : Char) : Bool :=
  c == ' ' || c == '\t' || c == '\n' || c == '\r'

/-- The token-scanning loop of the lexer; one token (or skipped space)
per iteration. -/
def lexLoop : Nat → List Char → Nat → List Token
  | 0, _, _ => []
  | _ + 1, [], _ => []
  | fuel + 1, c :: rest, pos =>
      if isSpaceChar c then
        lexLoop fuel rest (pos + 1)
      else if isIdentStart c then
        let chars := c :: rest.takeWhile isIdentChar
        let word : String := ⟨chars⟩
        ⟨keywordLookup word, word, pos⟩ ::
          lexLoop fuel (rest.dropWhile isIdentChar) (pos + chars.length)
      else if isDigitChar c then
        let intChars := c :: rest.takeWhile isDigitChar
        let rest2 := rest.dropWhile isDigitChar
        match rest2 with
        | '.' :: r =>
          if (r.headD ' ').isDigit then
            let lit : List Char :=
              intChars ++ '.' :: r.takeWhile isDigitChar
            ⟨.NUMBER, ⟨lit⟩, pos⟩ ::
              lexLoop fuel (r.dropWhile isDigitChar) (pos + lit.length)
          else
            ⟨.NUMBER, ⟨intChars⟩, pos⟩ ::
              lexLoop fuel rest2 (pos + intChars.length)
        | _ =>
          ⟨.NUMBER, ⟨intChars⟩, pos⟩ ::
            lexLoop fuel rest2 (pos + intChars.length)
      else if isQuoteChar c then
        let content := rest.takeWhile (fun x => x != c)
        let rest2 := rest.dropWhile (fun x => x != c)
        let lit : List Char := c :: content ++
          (match rest2 with
           | q :: _ => [q]
           | [] => [])
        ⟨.STRING, ⟨lit⟩, pos⟩ :: lexLoop fuel rest2.tail (pos + lit.length)
      else
        match c, rest with
        | '=', '=' :: r => ⟨.EQUAL, "==", pos⟩ :: lexLoop fuel r (pos + 2)
        | '~', '=' :: r => ⟨.NEQ, "~=", pos⟩ :: lexLoop fuel r (pos + 2)
        | '<', '=' :: r => ⟨.LEQ, "<=", pos⟩ :: lexLoop fuel r (pos + 2)
        | '>', '=' :: r => ⟨.GEQ, ">=", pos⟩ :: lexLoop fuel r (pos + 2)
        | '.', '.' :: r => ⟨.CONCAT, "..", pos⟩ :: lexLoop fuel r (pos + 2)
        | '=', _ => ⟨.ASSIGN, "=", pos⟩ :: lexLoop fuel rest (pos + 1)
        | '<', _ => ⟨.LT, "<", pos⟩ :: lexLoop fuel rest (pos + 1)
        | '>', _ => ⟨.GT, ">", pos⟩ :: lexLoop fuel rest (pos + 1)
        | '+', _ => ⟨.PLUS, "+", pos⟩ :: lexLoop fuel rest (pos + 1)
        | '-', _ => ⟨.MINUS, "-", pos⟩ :: lexLoop fuel rest (pos + 1)
        | '*', _ => ⟨.STAR, "*", pos⟩ :: lexLoop fuel rest (pos + 1)
        | '/', _ => ⟨.SLASH, "/", pos⟩ :: lexLoop fuel rest (pos + 1)
        | '%', _ => ⟨.PERCENT, "%", pos⟩ :: lexLoop fuel rest (pos + 1)
        | '^', _ => ⟨.CARET, "^", pos⟩ :: lexLoop fuel rest (pos + 1)
        | '#', _ => ⟨.HASH, "#", pos⟩ :: lexLoop fuel rest (pos + 1)
        | '(', _ => ⟨.LPAREN, "(", pos⟩ :: lexLoop fuel rest (pos + 1)
        | ')', _ => ⟨.RPAREN, ")", pos⟩ :: lexLoop fuel rest (pos + 1)
        | '\x7b', _ => ⟨.LBRACE, "\x7b", pos⟩ :: lexLoop fuel rest (pos + 1)
        | '\x7d', _ => ⟨.RBRACE, "\x7d", pos⟩ :: lexLoop fuel rest (pos + 1)
        | '[', _ => ⟨.LBRACK, "[", pos⟩ :: lexLoop fuel rest (pos + 1)
        | ']', _ => ⟨.RBRACK, "]", pos⟩ :: lexLoop fuel rest (pos + 1)
        | ',', _ => ⟨.COMMA, ",", pos⟩ :: lexLoop fuel rest (pos + 1)
        | ';', _ => ⟨.SEMICOLON, ";", pos⟩ :: lexLoop fuel rest (pos + 1)
        | _, _ => ⟨.ILLEGAL, ⟨[c]⟩, pos⟩ :: lexLoop fuel rest (pos + 1)

/-- Modelled from the spec: `tokenize` runs the lexer over a source
buffer (the terminating end-of-input token is implicit: the parser
cursor reads `eofTok` past the end of the list). -/
def tokenize (s : String) : List Token := lexLoop (s.length + 1) s.toList 0

/-! ## Claim-level helpers -/

/-- Run the expression parser from a fresh cursor with ample fuel. -/
def runExpr (toks : List Token) : PRes (Option Expression) :=
  parseExpression 64 LOWEST ⟨toks, []⟩

/-- An identifier token. -/
def identTok (n : String) (p : Nat) : Token := ⟨.IDENT, n, p⟩

/-- An operator token carrying its canonical text. -/
def opTok (t : TokenType) : Token := ⟨t, tokenStr t, 0⟩

/-- The fifteen binary-operator token types of `binaryOperators`. -/
def binOpsList : List TokenType :=
  [.AND, .CARET, .CONCAT, .EQUAL, .GEQ, .GT, .LEQ, .LT, .MINUS, .NEQ,
   .OR, .PERCENT, .PLUS, .SLASH, .STAR]

/-- Identifier operand expressions used by the operator-family checks. -/
def aE : Expression := .ident ⟨"a", 0⟩

/-- Second identifier operand. -/
def bE : Expression := .ident ⟨"b", 0⟩

/-- Third identifier operand. -/
def cE : Expression := .ident ⟨"c", 0⟩

/-- The token stream `a o1 b o2 c`. -/
def chainToks (o1 o2 : TokenType) : List Token :=
  [identTok "a" 0, opTok o1, identTok "b" 0, opTok o2, identTok "c" 0]

/-- Whether a parse run succeeded with exactly the given tree, consumed
the whole stream, and recorded no diagnostic. -/
def resultEq (r : PRes (Option Expression)) (e : Expression) : Bool :=
  match r with
  | .ok (some x, st) => eqExpr x e && st.toks.isEmpty && st.errors.isEmpty
  | _ => false

/-- When the first of two adjacent operators binds looser, the second
operator's expression nests on the right. -/
def lowerFirstOk (o1 o2 : TokenType) : Bool :=
  resultEq (runExpr (chainToks o1 o2))
    (.binary (some aE) o1 (some (.binary (some bE) o2 (some cE))))

/-- When the first of two adjacent operators binds tighter, its
expression nests on the left. -/
def higherFirstOk (o1 o2 : TokenType) : Bool :=
  resultEq (runExpr (chainToks o2 o1))
    (.binary (some (.binary (some aE) o2 (some bE))) o1 (some cE))

/-- Both orders of every pair of binary operators of different
precedence resolve in favour of the higher-precedence operator. -/
def precPairsOk : Bool :=
  binOpsList.all fun o1 => binOpsList.all fun o2 =>
    if precedences o1 < precedences o2 then
      lowerFirstOk o1 o2 && higherFirstOk o1 o2
    else true

/-- An `a o b o c` chain of one operator nests to the right. -/
def rightNestedOk (o : TokenType) : Bool :=
  resultEq (runExpr (chainToks o o))
    (.binary (some aE) o (some (.binary (some bE) o (some cE))))

/-- An `a o b o c` chain of one operator nests to the left. -/
def leftNestedOk (o : TokenType) : Bool :=
  resultEq (runExpr (chainToks o o))
    (.binary (some (.binary (some aE) o (some bE))) o (some cE))

/-- Every binary operator chains to the right exactly when
`isRightAssociative` holds of it and to the left otherwise. -/
def assocOk : Bool :=
  binOpsList.all fun o =>
    if isRightAssociative o then rightNestedOk o else leftNestedOk o


/-- Whether a parse produced a top-level binary-expression node. -/
def isBinaryTop : PRes (Option Expression) → Bool
  | .ok (some (.binary _ _ _), _) => true
  | _ => false

/-- The token types handled by `parseExpression`'s dispatch switch,
i.e. the tokens that can start an expression. -/
def isExprStart : TokenType → Bool
  | .FUNCTION => true
  | .TRUE => true
  | .FALSE => true
  | .HASH => true
  | .IDENT => true
  | .LPAREN => true
  | .MINUS => true
  | .NOT => true
  | .NUMBER => true
  | .STRING => true
  | .LBRACE => true
  | _ => false


/-- The top-level node kind of an expression parse result (used to
compare tree shapes): 0 panic, 1 nil, then one value per constructor. -/
def topKind : PRes (Option Expression) → Nat
  | .error _ => 0
  | .ok (none, _) => 1
  | .ok (some (.binary _ _ _), _) => 2
  | .ok (some (.unary _ _ _), _) => 3
  | .ok (some (.fcall _ _ _), _) => 4
  | .ok (some (.fexpr _ _ _ _), _) => 5
  | .ok (some (.ident _), _) => 6
  | .ok (some (.number _ _), _) => 7
  | .ok (some (.str _ _), _) => 8
  | .ok (some (.boolean _ _), _) => 9
  | .ok (some (.table _ _ _), _) => 10


/-- The identifier token `x` used by the table-field family. -/
def xTok : Token := identTok "x" 0

/-- A comma separator token. -/
def commaTok : Token := ⟨.COMMA, ",", 0⟩

/-- An opening-brace token. -/
def lbraceTok : Token := ⟨.LBRACE, "\x7b", 0⟩

/-- A closing-brace token. -/
def rbraceTok : Token := ⟨.RBRACE, "\x7d", 0⟩

/-- The table-constructor token stream after its first field: `k` more
comma-separated `x` fields, an optional trailing comma, and the closing
brace. -/
def remToks : Nat → Bool → List Token
  | 0, false => [rbraceTok]
  | 0, true => [commaTok, rbraceTok]
  | k + 1, tr => commaTok :: xTok :: remToks k tr

/-- The token stream of a table constructor with `n + 1` positional
`x` fields and an optional trailing comma. -/
def tableToks (n : Nat) (tr : Bool) : List Token :=
  lbraceTok :: xTok :: remToks n tr

/-- The field the parser builds for a positional `x` entry. -/
def xField : TableField := ⟨none, some (.ident ⟨"x", 0⟩), 0⟩

/-- Whether a boolean-literal token carries text accepted by
`strconv.ParseBool` (trivially true of all other tokens). -/
def boolTokOk (t : Token) : Bool :=
  match t.ttype with
  | .TRUE => goParseBool t.literal
  | .FALSE => goParseBool t.literal
  | _ => true

/-- All boolean-literal tokens still ahead of the cursor carry
convertible text — the property the lexer guarantees for every source
buffer. -/
def goodBools (st : PState) : Prop := ∀ t ∈ st.toks, boolTokOk t = true

/-- A parse step made progress: it returned normally (no panic) and
only consumed tokens. -/
def prog {α : Type} (r : PRes α) (st : PState) : Prop :=
  ∃ a st', r = .ok (a, st') ∧ st'.toks <:+ st.toks

/-! ## Theorems settling the claims -/

/-- C1: expression parsing respects the precedence table: for every
pair of adjacent binary operators of different precedence (in both
orders) the higher-precedence operator binds tighter, and
`1 + 2 * 3` parses as `+(1, *(2,3))`. -/
theorem precedence_table_respected :
    precPairsOk = true ∧
    runExpr (tokenize "1 + 2 * 3") =
      .ok (some (.binary (some (.number "1" 0)) .PLUS
            (some (.binary (some (.number "2" 0)) .STAR
              (some (.number "3" 0))))), ⟨[], []⟩) :=
  ⟨by decide, rfl⟩

/-- C2: `^` and `..` associate to the right, every other binary
operator to the left; `2 ^ 3 ^ 2`, `a .. b .. c` and `1 - 2 - 3` parse
as claimed. -/
theorem associativity_respected :
    assocOk = true ∧
    runExpr (tokenize "2 ^ 3 ^ 2") =
      .ok (some (.binary (some (.number "2" 0)) .CARET
            (some (.binary (some (.number "3" 0)) .CARET
              (some (.number "2" 0))))), ⟨[], []⟩) ∧
    runExpr (tokenize "a .. b .. c") =
      .ok (some (.binary (some (.ident ⟨"a", 0⟩)) .CONCAT
            (some (.binary (some (.ident ⟨"b", 0⟩)) .CONCAT
              (some (.ident ⟨"c", 0⟩))))), ⟨[], []⟩) ∧
    runExpr (tokenize "1 - 2 - 3") =
      .ok (some (.binary
            (some (.binary (some (.number "1" 0)) .MINUS
              (some (.number "2" 0)))) .MINUS
            (some (.number "3" 0))), ⟨[], []⟩) :=
  ⟨by decide, rfl, rfl, rfl⟩

/-! C3 -/

/-- C3 counterexample: on `f() + 1` the claim's second half fails — the
expression parser returns the bare call with `+ 1` left unconsumed, and
the top node of the result is not a binary expression. -/
theorem call_then_binary_claim_fails :
    runExpr (tokenize "f() + 1") =
      .ok (some (.fcall (some (.ident ⟨"f", 0⟩)) [] 3),
        ⟨[⟨.PLUS, "+", 4⟩, ⟨.NUMBER, "1", 6⟩], []⟩) ∧
    isBinaryTop (runExpr (tokenize "f() + 1")) = false :=
  ⟨rfl, rfl⟩

/-- C3 amended: after a primary expression, a following `(` or string
literal is parsed as a call argument list with that primary as callee
(including the single-string-argument sugar) instead of continuing the
binary-operator loop — but `parseExpression` then returns the call at
once, leaving any following tokens (in particular binary operators)
unconsumed. -/
theorem call_after_primary_returns_immediately :
    (∀ (name : String) (p1 p2 : Nat) (rest : List Token)
        (errs : List String),
      parseExpression 64 LOWEST
          ⟨identTok name 0 :: ⟨.LPAREN, "(", p1⟩ :: ⟨.RPAREN, ")", p2⟩ ::
            rest, errs⟩ =
        .ok (some (.fcall (some (.ident ⟨name, 0⟩)) [] (p2 + 1)),
          ⟨rest, errs⟩)) ∧
    (∀ (name s : String) (p : Nat) (rest : List Token)
        (errs : List String),
      parseExpression 64 LOWEST
          ⟨identTok name 0 :: ⟨.STRING, s, p⟩ :: rest, errs⟩ =
        .ok (some (.fcall (some (.ident ⟨name, 0⟩))
              [some (.str (goTrimQuotes s) 0)] (p + s.length)),
          ⟨rest, errs⟩)) :=
  ⟨fun _ _ _ _ _ => rfl, fun _ _ _ _ _ => rfl⟩

/-! C4 -/

/-- C4 counterexample: `parseIdentifier` on a non-identifier token
(here `+`) records the diagnostic but *does* advance past the
unexpected token, contrary to the claim. -/
theorem parse_identifier_consumes_unexpected :
    (parseIdentifier ⟨[⟨.PLUS, "+", 0⟩, identTok "x" 2], []⟩).2.toks =
      [identTok "x" 2] ∧
    (parseIdentifier ⟨[⟨.PLUS, "+", 0⟩, identTok "x" 2], []⟩).2.errors =
      [invalidTokenMsg .IDENT .PLUS] :=
  ⟨rfl, rfl⟩

/-- C4 amended: `parseExpression` on a token that cannot start an
expression records a diagnostic and returns `nil` without consuming the
token; `parseIdentifier` on a non-identifier token records a diagnostic
but consumes the unexpected token. -/
theorem missing_token_diagnostics :
    ∀ (st : PState) (prec fuel : Nat),
      (isExprStart st.cur.ttype = false →
        parseExpression (fuel + 1) prec st =
          .ok (none, st.addError (unparseableMsg st.cur))) ∧
      (st.cur.ttype ≠ .IDENT →
        parseIdentifier st =
          (none, ⟨st.toks.tail,
            st.errors ++ [invalidTokenMsg .IDENT st.cur.ttype]⟩)) := by
  intro st prec fuel
  constructor
  · intro h
    cases hc : st.cur.ttype <;>
      simp [parseExpression, hc, isExprStart] at h ⊢
  · intro h
    simp [parseIdentifier, h, PState.addError, PState.advance]

/-- C4 witness: the amended theorem applied to a `+` token at the
cursor. -/
theorem missing_token_diagnostics_witness :
    parseExpression 5 1 ⟨[⟨.PLUS, "+", 0⟩], []⟩ =
      .ok (none, ⟨[⟨.PLUS, "+", 0⟩],
        [unparseableMsg ⟨.PLUS, "+", 0⟩]⟩) ∧
    parseIdentifier ⟨[⟨.PLUS, "+", 0⟩], []⟩ =
      (none, ⟨[], [invalidTokenMsg .IDENT .PLUS]⟩) :=
  ⟨(missing_token_diagnostics ⟨[⟨.PLUS, "+", 0⟩], []⟩ 1 4).1 (by decide),
   (missing_token_diagnostics ⟨[⟨.PLUS, "+", 0⟩], []⟩ 1 4).2 (by decide)⟩

/-! C6 -/

/-- C6 counterexample: on a number token whose text does not convert
(here `1z`), `parseNumberLiteral` records the diagnostic and does not
crash, but the parse result is `nil` — an absent value, not a node —
and the offending token is not consumed. -/
theorem number_conversion_returns_nil :
    (parseNumberLiteral ⟨[⟨.NUMBER, "1z", 0⟩], []⟩).1 = none ∧
    (parseNumberLiteral ⟨[⟨.NUMBER, "1z", 0⟩], []⟩).2 =
      ⟨[⟨.NUMBER, "1z", 0⟩], [numberErrMsg "1z"]⟩ :=
  ⟨rfl, rfl⟩

/-- C6 amended: when a numeric literal token's text fails to convert,
the parser records a diagnostic and does not crash, but the result is
`nil` (an absent value) rather than a node, and the offending token is
left unconsumed for the caller's recovery. -/
theorem number_conversion_failure_behaviour :
    ∀ st : PState, st.cur.ttype = .NUMBER →
      goParseFloatOk st.cur.literal = false →
      parseNumberLiteral st =
        (none, st.addError (numberErrMsg st.cur.literal)) := by
  intro st _ h2
  simp [parseNumberLiteral, h2]

/-- C6 witness: the amended theorem applied to the literal `1z`. -/
theorem number_conversion_failure_witness :
    parseNumberLiteral ⟨[⟨.NUMBER, "1z", 0⟩], []⟩ =
      (none, ⟨[⟨.NUMBER, "1z", 0⟩], [numberErrMsg "1z"]⟩) :=
  number_conversion_failure_behaviour ⟨[⟨.NUMBER, "1z", 0⟩], []⟩
    (by decide) (by decide)

/-! C7 -/

/-- C7: the position invariant fails on a tree the parser returns.  On
`local x = 11 a = 2` the expression nodes keep `StartPos` zero (the
source never sets it), so the first statement ends at offset 2 while
the second statement reports position 0: consecutive statements in the
returned block violate `stmt[i].End() <= stmt[i+1].Pos()`. -/
theorem position_monotonicity_violated :
    parseBlock 64 ⟨tokenize "local x = 11 a = 2", []⟩ =
      .ok (⟨[.localStmt [some ⟨"x", 0⟩] [some (.number "11" 0)] 0,
             .assign [some (.ident ⟨"a", 0⟩)] [some (.number "2" 0)]],
            0⟩, ⟨[], []⟩) ∧
    stmtEnd (.localStmt [some ⟨"x", 0⟩] [some (.number "11" 0)] 0) =
      some 2 ∧
    stmtPos (.assign [some (.ident ⟨"a", 0⟩)] [some (.number "2" 0)]) =
      some 0 ∧
    stmtsMonotone
      [.localStmt [some ⟨"x", 0⟩] [some (.number "11" 0)] 0,
       .assign [some (.ident ⟨"a", 0⟩)] [some (.number "2" 0)]] =
      false :=
  ⟨rfl, rfl, rfl, rfl⟩

/-! C9 -/

/-- C9: canonical-rendering idempotence fails on `not x`, which parses
without diagnostics to a unary expression, renders as `(notx)` (no
space after the keyword operator), and re-parses as a bare identifier —
a different node kind. -/
theorem rendering_idempotence_fails :
    runExpr (tokenize "not x") =
      .ok (some (.unary .NOT (some (.ident ⟨"x", 0⟩)) 0), ⟨[], []⟩) ∧
    exprString (.unary .NOT (some (.ident ⟨"x", 0⟩)) 0) =
      some "(notx)" ∧
    runExpr (tokenize "(notx)") =
      .ok (some (.ident ⟨"notx", 0⟩), ⟨[], []⟩) ∧
    topKind (runExpr (tokenize "not x")) = 3 ∧
    topKind (runExpr (tokenize "(notx)")) = 6 :=
  ⟨rfl, rfl, rfl, rfl, rfl⟩

/-! C8 -/

/-- The `strings.Trim` model removes exactly the two delimiter
characters when the enclosed content does not itself begin or end with
a quote character. -/
theorem goTrimQuotes_wrap (c : Char) (s : List Char)
    (hq : isQuoteChar c = true)
    (hh : ∀ a, s.head? = some a → isQuoteChar a = false)
    (hl : ∀ b, s.getLast? = some b → isQuoteChar b = false) :
    goTrimQuotes ⟨c :: (s ++ [c])⟩ = ⟨s⟩ := by
  unfold goTrimQuotes
  congr 1
  show (((c :: (s ++ [c])).dropWhile isQuoteChar).reverse.dropWhile
      isQuoteChar).reverse = s
  rw [List.dropWhile_cons]
  simp only [hq, if_true]
  cases s with
  | nil => simp [List.dropWhile, hq]
  | cons a s2 =>
    have ha : isQuoteChar a = false := hh a rfl
    rw [List.cons_append, List.dropWhile_cons]
    simp only [ha, if_false, Bool.false_eq_true]
    rw [show a :: (s2 ++ [c]) = (a :: s2) ++ [c] from rfl,
      List.reverse_append]
    simp only [List.reverse_cons, List.reverse_nil, List.nil_append,
      List.singleton_append]
    rw [List.dropWhile_cons]
    simp only [hq, if_true]
    have hstay : List.dropWhile isQuoteChar (a :: s2).reverse =
        (a :: s2).reverse := by
      cases hr : (a :: s2).reverse with
      | nil => simp at hr
      | cons y ys =>
        have hy : (a :: s2).getLast? = some y := by
          rw [← List.head?_reverse, hr]
          rfl
        rw [List.dropWhile_cons]
        simp [hl y hy]
    rw [← List.reverse_cons, hstay, List.reverse_reverse]

/-- C8 counterexample: a double-quoted string whose content is itself
single-quoted — literal `"'hello'"` — loses the content's quote
characters: the parsed `Value` is `hello`, not `'hello'` as the claim
("exactly one leading and one trailing delimiter removed, content
quotes preserved") requires. -/
theorem string_trim_strips_content_quotes :
    (parseStringLiteral
        ⟨[⟨.STRING,
            ⟨dqChar :: sqChar :: ("hello".toList ++ [sqChar, dqChar])⟩,
            0⟩], []⟩).1 =
      .str "hello" 0 ∧
    ("hello" : String) ≠ ⟨sqChar :: ("hello".toList ++ [sqChar])⟩ :=
  ⟨rfl, by decide⟩

/-- C8 amended: `parseStringLiteral` trims *all* leading and trailing
quote characters (of either kind) from the token's literal; when the
content does not itself begin or end with a quote character this is
exactly the removal of the two surrounding delimiters, and quote
characters strictly inside the content are preserved. -/
theorem string_literal_delimiters (c : Char) (s : List Char) (p : Nat)
    (rest : List Token) (errs : List String)
    (hq : isQuoteChar c = true)
    (hh : ∀ a, s.head? = some a → isQuoteChar a = false)
    (hl : ∀ b, s.getLast? = some b → isQuoteChar b = false) :
    parseStringLiteral ⟨⟨.STRING, ⟨c :: (s ++ [c])⟩, p⟩ :: rest, errs⟩ =
      (.str ⟨s⟩ 0, ⟨rest, errs⟩) := by
  have ht := goTrimQuotes_wrap c s hq hh hl
  simp [parseStringLiteral, PState.cur, PState.advance, ht]

/-- C8 witness: the amended theorem applied to the double-quoted
content `ab`, whose interior character `b` is preserved. -/
theorem string_literal_delimiters_witness :
    parseStringLiteral
        ⟨[⟨.STRING, ⟨dqChar :: (['a', 'b'] ++ [dqChar])⟩, 7⟩], []⟩ =
      (.str ⟨['a', 'b']⟩ 0, ⟨[], []⟩) :=
  string_literal_delimiters dqChar ['a', 'b'] 7 [] [] (by decide)
    (by intro a ha; simp [List.head?] at ha; subst ha; decide)
    (by intro b hb; simp [List.getLast?] at hb; subst hb; decide)

/-! C10 -/

/-- A positional `x` table field parses (with any fuel of the shape
`g + 4`) whenever the following token is a field separator or the
closing brace. -/
theorem parseTableField_x (g k : Nat) (tr : Bool) (errs : List String) :
    parseTableField (g + 4) ⟨xTok :: remToks k tr, errs⟩ =
      .ok (xField, ⟨remToks k tr, errs⟩) := by
  cases k with
  | zero => cases tr <;> rfl
  | succ k2 => cases tr <;> rfl

/-- The separator loop of `parseTableLiteral` consumes the
comma-separated `x` fields one per fuel unit and stops at the closing
brace. -/
theorem tableLoop_x (k : Nat) :
    ∀ (f : Nat) (acc : List TableField) (errs : List String) (tr : Bool),
      tableLoop (k + f + 5) acc ⟨remToks k tr, errs⟩ =
        .ok (acc ++ List.replicate k xField, ⟨[rbraceTok], errs⟩) := by
  induction k with
  | zero =>
    intro f acc errs tr
    have h0 : acc ++ List.replicate 0 xField = acc := by simp
    rw [h0]
    cases tr <;> rfl
  | succ k ih =>
    intro f acc errs tr
    have hstep : tableLoop (k + 1 + f + 5) acc ⟨remToks (k + 1) tr, errs⟩ =
        tableLoop (k + 1 + f + 4) (acc ++ [xField]) ⟨remToks k tr, errs⟩ := by
      cases k <;> cases tr <;> rfl
    rw [hstep, show k + 1 + f + 4 = k + f + 5 from by omega,
      ih f (acc ++ [xField]) errs tr]
    have hl : acc ++ [xField] ++ List.replicate k xField =
        acc ++ List.replicate (k + 1) xField := by
      simp [List.replicate_succ]
    rw [hl]

/-- The whole family of non-empty positional-`x` table constructors
(any number of fields, with or without a trailing separator) parses to
the expected field list with no diagnostic. -/
theorem table_family_parses :
    ∀ (n : Nat) (tr : Bool) (f : Nat),
      parseExpression (n + f + 8) LOWEST ⟨tableToks n tr, []⟩ =
        .ok (some (.table (List.replicate (n + 1) xField) 0 0),
          ⟨[], []⟩) := by
  intro n tr f
  have hfld : parseTableField (n + f + 6) ⟨xTok :: remToks n tr, []⟩ =
      .ok (xField, ⟨remToks n tr, []⟩) := by
    have h := parseTableField_x (n + f + 2) n tr []
    rwa [show n + f + 2 + 4 = n + f + 6 from by omega] at h
  have hloop : tableLoop (n + f + 6) [xField] ⟨remToks n tr, []⟩ =
      .ok ([xField] ++ List.replicate n xField, ⟨[rbraceTok], []⟩) := by
    have h := tableLoop_x n (f + 1) [xField] [] tr
    rwa [show n + (f + 1) + 5 = n + f + 6 from by omega] at h
  rw [show parseExpression (n + f + 8) LOWEST ⟨tableToks n tr, []⟩ =
      (match
        (match parseTableField (n + f + 6) ⟨xTok :: remToks n tr, []⟩ with
         | Except.error e => Except.error e
         | Except.ok (fld, st) =>
           match tableLoop (n + f + 6) [fld] st with
           | Except.error e => Except.error e
           | Except.ok (fields, st) =>
             Except.ok (Expression.table fields 0 0, st.expect .RBRACE)) with
       | Except.error e => Except.error e
       | Except.ok (le, st) => afterPrimary (n + f + 7) LOWEST (some le) st)
    from rfl]
  rw [hfld]
  show (match
      (match tableLoop (n + f + 6) [xField] ⟨remToks n tr, []⟩ with
       | Except.error e => Except.error e
       | Except.ok (fields, st) =>
         Except.ok (Expression.table fields 0 0, st.expect .RBRACE)) with
    | Except.error e => Except.error e
    | Except.ok (le, st) => afterPrimary (n + f + 7) LOWEST (some le) st) =
    Except.ok (some (.table (List.replicate (n + 1) xField) 0 0),
      ⟨[], []⟩)
  rw [hloop]
  rfl

/-- C10: `{}` does not produce a zero-field table — the unconditional
first-field parse fails on `}`, recording the unparseable-expression
diagnostic and yielding one placeholder field — while every
comma-separated non-empty positional field list, with or without a
trailing separator, parses without any diagnostic. -/
theorem table_literal_requires_field :
    (parseExpression 64 LOWEST ⟨tokenize "\x7b\x7d", []⟩ =
      .ok (some (.table [⟨none, none, 0⟩] 0 0),
        ⟨[], [unparseableMsg ⟨.RBRACE, "\x7d", 1⟩]⟩)) ∧
    (∀ (n : Nat) (tr : Bool) (f : Nat),
      parseExpression (n + f + 8) LOWEST ⟨tableToks n tr, []⟩ =
        .ok (some (.table (List.replicate (n + 1) xField) 0 0),
          ⟨[], []⟩)) :=
  ⟨rfl, table_family_parses⟩

theorem goodBools_of_suffix {st st' : PState}
    (h : st'.toks <:+ st.toks) (hg : goodBools st) : goodBools st' :=
  fun t ht => hg t (h.subset ht)

theorem advance_suffix (st : PState) : st.advance.toks <:+ st.toks :=
  List.tail_suffix _

theorem expect_suffix (st : PState) (t : TokenType) :
    (st.expect t).toks <:+ st.toks := by
  unfold PState.expect
  split
  · exact List.tail_suffix _
  · exact List.suffix_refl _

theorem parseIdentifier_suffix (st : PState) :
    (parseIdentifier st).2.toks <:+ st.toks := by
  unfold parseIdentifier
  split <;> exact List.tail_suffix _

theorem parseNumberLiteral_suffix (st : PState) :
    (parseNumberLiteral st).2.toks <:+ st.toks := by
  unfold parseNumberLiteral
  split
  · exact List.tail_suffix _
  · exact List.suffix_refl _

theorem parseStringLiteral_suffix (st : PState) :
    (parseStringLiteral st).2.toks <:+ st.toks :=
  List.tail_suffix _

theorem parseBooleanLiteral_ok {st : PState}
    (h : st.cur.ttype = .TRUE ∨ st.cur.ttype = .FALSE)
    (hg : goodBools st) :
    ∃ e st', parseBooleanLiteral st = .ok (e, st') ∧
      st'.toks <:+ st.toks := by
  cases hts : st.toks with
  | nil =>
    exfalso
    have : st.cur = eofTok := by simp [PState.cur, hts]
    rw [this] at h
    cases h <;> simp_all [eofTok]
  | cons t rest =>
    have hcur : st.cur = t := by simp [PState.cur, hts]
    have hmem : t ∈ st.toks := by simp [hts]
    have hok : boolTokOk t = true := hg t hmem
    have hpb : goParseBool st.cur.literal = true := by
      rw [hcur]
      rw [hcur] at h
      unfold boolTokOk at hok
      cases h with
      | inl h1 => rw [h1] at hok; exact hok
      | inr h1 => rw [h1] at hok; exact hok
    refine ⟨.boolean (goParseBoolValue st.cur.literal) 0, st.advance, ?_,
      hts ▸ advance_suffix st⟩
    unfold parseBooleanLiteral
    rw [hpb]
    simp

/-! C5 -/

/-- Every parse function, given any fuel and any cursor whose remaining
boolean-literal tokens carry convertible text, returns normally (no
panic) having consumed only tokens.  Proved for all nineteen mutually
recursive parser functions simultaneously, by induction on fuel. -/
theorem parser_total (fuel : Nat) :
    (∀ prec st, goodBools st → prog (parseExpression fuel prec st) st) ∧
    (∀ prec le st, goodBools st → prog (afterPrimary fuel prec le st) st) ∧
    (∀ prec le st, goodBools st → prog (binLoop fuel prec le st) st) ∧
    (∀ le st, goodBools st → prog (parseBinaryExpression fuel le st) st) ∧
    (∀ st, goodBools st → prog (parseExpressionList fuel st) st) ∧
    (∀ acc st, goodBools st → prog (expListLoop fuel acc st) st) ∧
    (∀ st, goodBools st → prog (parseNameList fuel st) st) ∧
    (∀ acc st, goodBools st → prog (nameListLoop fuel acc st) st) ∧
    (∀ st, goodBools st → prog (parseFunctionExpression fuel st) st) ∧
    (∀ st, goodBools st → prog (parseSurroundingExpression fuel st) st) ∧
    (∀ st, goodBools st → prog (parseUnaryExpression fuel st) st) ∧
    (∀ st, goodBools st → prog (parseTableLiteral fuel st) st) ∧
    (∀ acc st, goodBools st → prog (tableLoop fuel acc st) st) ∧
    (∀ st, goodBools st → prog (parseTableField fuel st) st) ∧
    (∀ le st, goodBools st → prog (parseFunctionCall fuel le st) st) ∧
    (∀ st, goodBools st → prog (parseBlock fuel st) st) ∧
    (∀ acc sp st, goodBools st → prog (stmtLoop fuel acc sp st) st) ∧
    (∀ st, goodBools st → prog (parseStatement fuel st) st) ∧
    (∀ st, goodBools st → prog (parseLocalStatement fuel st) st) := by
  induction fuel with
  | zero =>
    refine ⟨?_, ?_, ?_, ?_, ?_, ?_, ?_, ?_, ?_, ?_, ?_, ?_, ?_, ?_, ?_,
      ?_, ?_, ?_, ?_⟩ <;>
      intros <;>
      exact ⟨_, _, rfl, List.suffix_refl _⟩
  | succ fuel ih =>
    obtain ⟨ihE, ihAP, ihBL, ihBE, ihEL, ihELL, ihNL, ihNLL, ihFE, ihSE,
      ihUE, ihTL, ihTLL, ihTF, ihFC, ihPB, ihSL, ihPS, ihLS⟩ := ih
    refine ⟨?_, ?_, ?_, ?_, ?_, ?_, ?_, ?_, ?_, ?_, ?_, ?_, ?_, ?_, ?_,
      ?_, ?_, ?_, ?_⟩
    -- parseExpression
    · intro prec st hg
      cases hc : st.cur.ttype
      case FUNCTION =>
        simp only [parseExpression, hc]
        obtain ⟨le, st1, he, hs⟩ := ihFE st hg
        obtain ⟨r, st2, he2, hs2⟩ :=
          ihAP prec (some le) st1 (goodBools_of_suffix hs hg)
        exact ⟨r, st2, by simp only [he, he2], hs2.trans hs⟩
      case TRUE =>
        simp only [parseExpression, hc]
        obtain ⟨le, st1, he, hs⟩ := parseBooleanLiteral_ok (Or.inl hc) hg
        obtain ⟨r, st2, he2, hs2⟩ :=
          ihAP prec (some le) st1 (goodBools_of_suffix hs hg)
        exact ⟨r, st2, by simp only [he, he2], hs2.trans hs⟩
      case FALSE =>
        simp only [parseExpression, hc]
        obtain ⟨le, st1, he, hs⟩ := parseBooleanLiteral_ok (Or.inr hc) hg
        obtain ⟨r, st2, he2, hs2⟩ :=
          ihAP prec (some le) st1 (goodBools_of_suffix hs hg)
        exact ⟨r, st2, by simp only [he, he2], hs2.trans hs⟩
      case HASH =>
        simp only [parseExpression, hc]
        obtain ⟨le, st1, he, hs⟩ := ihUE st hg
        obtain ⟨r, st2, he2, hs2⟩ :=
          ihAP prec (some le) st1 (goodBools_of_suffix hs hg)
        exact ⟨r, st2, by simp only [he, he2], hs2.trans hs⟩
      case MINUS =>
        simp only [parseExpression, hc]
        obtain ⟨le, st1, he, hs⟩ := ihUE st hg
        obtain ⟨r, st2, he2, hs2⟩ :=
          ihAP prec (some le) st1 (goodBools_of_suffix hs hg)
        exact ⟨r, st2, by simp only [he, he2], hs2.trans hs⟩
      case NOT =>
        simp only [parseExpression, hc]
        obtain ⟨le, st1, he, hs⟩ := ihUE st hg
        obtain ⟨r, st2, he2, hs2⟩ :=
          ihAP prec (some le) st1 (goodBools_of_suffix hs hg)
        exact ⟨r, st2, by simp only [he, he2], hs2.trans hs⟩
      case IDENT =>
        simp only [parseExpression, hc]
        rcases hpi : parseIdentifier st with ⟨id0, st1⟩
        have hs : st1.toks <:+ st.toks := by
          have h := parseIdentifier_suffix st
          rwa [hpi] at h
        obtain ⟨r, st2, he2, hs2⟩ :=
          ihAP prec (id0.map .ident) st1 (goodBools_of_suffix hs hg)
        exact ⟨r, st2, by simp only [hpi, he2], hs2.trans hs⟩
      case LPAREN =>
        simp only [parseExpression, hc]
        obtain ⟨le, st1, he, hs⟩ := ihSE st hg
        obtain ⟨r, st2, he2, hs2⟩ :=
          ihAP prec le st1 (goodBools_of_suffix hs hg)
        exact ⟨r, st2, by simp only [he, he2], hs2.trans hs⟩
      case NUMBER =>
        simp only [parseExpression, hc]
        rcases hpn : parseNumberLiteral st with ⟨le, st1⟩
        have hs : st1.toks <:+ st.toks := by
          have h := parseNumberLiteral_suffix st
          rwa [hpn] at h
        obtain ⟨r, st2, he2, hs2⟩ :=
          ihAP prec le st1 (goodBools_of_suffix hs hg)
        exact ⟨r, st2, by simp only [hpn, he2], hs2.trans hs⟩
      case STRING =>
        simp only [parseExpression, hc]
        rcases hps : parseStringLiteral st with ⟨le, st1⟩
        have hs : st1.toks <:+ st.toks := by
          have h := parseStringLiteral_suffix st
          rwa [hps] at h
        obtain ⟨r, st2, he2, hs2⟩ :=
          ihAP prec (some le) st1 (goodBools_of_suffix hs hg)
        exact ⟨r, st2, by simp only [hps, he2], hs2.trans hs⟩
      case LBRACE =>
        simp only [parseExpression, hc]
        obtain ⟨le, st1, he, hs⟩ := ihTL st hg
        obtain ⟨r, st2, he2, hs2⟩ :=
          ihAP prec (some le) st1 (goodBools_of_suffix hs hg)
        exact ⟨r, st2, by simp only [he, he2], hs2.trans hs⟩
      all_goals
        simp only [parseExpression, hc]
        exact ⟨none, _, rfl, List.suffix_refl _⟩
    -- afterPrimary
    · intro prec le st hg
      simp only [afterPrimary]
      split
      · obtain ⟨c, st1, he, hs⟩ := ihFC le st hg
        exact ⟨some c, st1, by simp only [he], hs⟩
      · exact ihBL prec le st hg
    -- binLoop
    · intro prec le st hg
      simp only [binLoop]
      split
      · split <;> split <;>
          first
          | exact ⟨le, st, rfl, List.suffix_refl _⟩
          | · obtain ⟨e1, st1, he, hs⟩ := ihBE le st hg
              obtain ⟨r, st2, he2, hs2⟩ :=
                ihBL prec (some e1) st1 (goodBools_of_suffix hs hg)
              exact ⟨r, st2, by simp only [he, he2], hs2.trans hs⟩
      · exact ⟨le, st, rfl, List.suffix_refl _⟩
    -- parseBinaryExpression
    · intro le st hg
      simp only [parseBinaryExpression]
      obtain ⟨r, st1, he, hs⟩ := ihE st.tokPrecedence st.advance
        (goodBools_of_suffix (advance_suffix st) hg)
      exact ⟨.binary le st.cur.ttype r, st1, by simp only [he],
        hs.trans (advance_suffix st)⟩
    -- parseExpressionList
    · intro st hg
      simp only [parseExpressionList]
      obtain ⟨e, st1, he, hs⟩ := ihE LOWEST st hg
      obtain ⟨r, st2, he2, hs2⟩ :=
        ihELL [e] st1 (goodBools_of_suffix hs hg)
      exact ⟨r, st2, by simp only [he, he2], hs2.trans hs⟩
    -- expListLoop
    · intro acc st hg
      simp only [expListLoop]
      split
      · obtain ⟨e, st1, he, hs⟩ := ihE LOWEST st.advance
          (goodBools_of_suffix (advance_suffix st) hg)
        have hs1 : st1.toks <:+ st.toks := hs.trans (advance_suffix st)
        obtain ⟨r, st2, he2, hs2⟩ :=
          ihELL (acc ++ [e]) st1 (goodBools_of_suffix hs1 hg)
        exact ⟨r, st2, by simp only [he, he2], hs2.trans hs1⟩
      · exact ⟨acc, st, rfl, List.suffix_refl _⟩
    -- parseNameList
    · intro st hg
      simp only [parseNameList]
      rcases hpi : parseIdentifier st with ⟨i, st1⟩
      have hs : st1.toks <:+ st.toks := by
        have h := parseIdentifier_suffix st
        rwa [hpi] at h
      obtain ⟨r, st2, he2, hs2⟩ :=
        ihNLL [i] st1 (goodBools_of_suffix hs hg)
      exact ⟨r, st2, by simp only [hpi, he2], hs2.trans hs⟩
    -- nameListLoop
    · intro acc st hg
      simp only [nameListLoop]
      split
      · rcases hpi : parseIdentifier st.advance with ⟨i, st1⟩
        have hs : st1.toks <:+ st.toks := by
          have h := parseIdentifier_suffix st.advance
          rw [hpi] at h
          exact h.trans (advance_suffix st)
        obtain ⟨r, st2, he2, hs2⟩ :=
          ihNLL (acc ++ [i]) st1 (goodBools_of_suffix hs hg)
        exact ⟨r, st2, by simp only [hpi, he2], hs2.trans hs⟩
      · exact ⟨acc, st, rfl, List.suffix_refl _⟩
    -- parseFunctionExpression
    · intro st hg
      simp only [parseFunctionExpression]
      have hsa : ((st.expect .FUNCTION).expect .LPAREN).toks <:+ st.toks :=
        (expect_suffix _ _).trans (expect_suffix _ _)
      obtain ⟨params, st1, he, hs⟩ := ihNL _ (goodBools_of_suffix hsa hg)
      have hs1 : (st1.expect .RPAREN).toks <:+ st.toks :=
        (expect_suffix _ _).trans (hs.trans hsa)
      obtain ⟨body, st2, he2, hs2⟩ := ihPB _ (goodBools_of_suffix hs1 hg)
      exact ⟨.fexpr params body 0 0, st2.expect .END,
        by simp only [he, he2], (expect_suffix _ _).trans (hs2.trans hs1)⟩
    -- parseSurroundingExpression
    · intro st hg
      simp only [parseSurroundingExpression]
      obtain ⟨e, st1, he, hs⟩ := ihE LOWEST (st.expect .LPAREN)
        (goodBools_of_suffix (expect_suffix _ _) hg)
      exact ⟨e, st1.expect .RPAREN, by simp only [he],
        (expect_suffix _ _).trans (hs.trans (expect_suffix _ _))⟩
    -- parseUnaryExpression
    · intro st hg
      simp only [parseUnaryExpression]
      obtain ⟨r, st1, he, hs⟩ := ihE UNARY st.advance
        (goodBools_of_suffix (advance_suffix st) hg)
      exact ⟨.unary st.cur.ttype r 0, st1, by simp only [he],
        hs.trans (advance_suffix st)⟩
    -- parseTableLiteral
    · intro st hg
      simp only [parseTableLiteral]
      obtain ⟨fld, st1, he, hs⟩ := ihTF (st.expect .LBRACE)
        (goodBools_of_suffix (expect_suffix _ _) hg)
      have hs1 : st1.toks <:+ st.toks := hs.trans (expect_suffix _ _)
      obtain ⟨fields, st2, he2, hs2⟩ :=
        ihTLL [fld] st1 (goodBools_of_suffix hs1 hg)
      exact ⟨.table fields 0 0, st2.expect .RBRACE,
        by simp only [he, he2], (expect_suffix _ _).trans (hs2.trans hs1)⟩
    -- tableLoop
    · intro acc st hg
      simp only [tableLoop]
      split
      · split
        · exact ⟨acc, st.advance, rfl, advance_suffix st⟩
        · obtain ⟨fld, st1, he, hs⟩ := ihTF st.advance
            (goodBools_of_suffix (advance_suffix st) hg)
          have hs1 : st1.toks <:+ st.toks := hs.trans (advance_suffix st)
          obtain ⟨r, st2, he2, hs2⟩ :=
            ihTLL (acc ++ [fld]) st1 (goodBools_of_suffix hs1 hg)
          exact ⟨r, st2, by simp only [he, he2], hs2.trans hs1⟩
      · exact ⟨acc, st, rfl, List.suffix_refl _⟩
    -- parseTableField
    · intro st hg
      simp only [parseTableField]
      have hst2 : (if st.tokIs .LBRACK = true then st.advance else
          st).toks <:+ st.toks := by
        split
        · exact advance_suffix st
        · exact List.suffix_refl _
      obtain ⟨leftExp, st3, he, hs⟩ :=
        ihE LOWEST _ (goodBools_of_suffix hst2 hg)
      have hs3 : st3.toks <:+ st.toks := hs.trans hst2
      simp only [he]
      split
      · split
        · exact ⟨_, _, rfl, (expect_suffix _ _).trans hs3⟩
        · obtain ⟨rightExp, st6, he2, hs2⟩ := ihE LOWEST
            ((st3.expect .RBRACK).expect .ASSIGN)
            (goodBools_of_suffix
              ((expect_suffix _ _).trans
                ((expect_suffix _ _).trans hs3)) hg)
          exact ⟨⟨leftExp, rightExp, 0⟩, st6, by simp only [he2],
            hs2.trans ((expect_suffix _ _).trans
              ((expect_suffix _ _).trans hs3))⟩
      · split
        · exact ⟨_, _, rfl, hs3⟩
        · obtain ⟨rightExp, st6, he2, hs2⟩ := ihE LOWEST
            (st3.expect .ASSIGN)
            (goodBools_of_suffix ((expect_suffix _ _).trans hs3) hg)
          exact ⟨⟨leftExp, rightExp, 0⟩, st6, by simp only [he2],
            hs2.trans ((expect_suffix _ _).trans hs3)⟩
    -- parseFunctionCall
    · intro le st hg
      simp only [parseFunctionCall]
      split
      · exact ⟨_, _, rfl, parseStringLiteral_suffix st⟩
      · split
        · exact ⟨_, (st.expect .LPAREN).advance, rfl,
            (advance_suffix _).trans (expect_suffix _ _)⟩
        · obtain ⟨args, st1, he, hs⟩ := ihEL (st.expect .LPAREN)
            (goodBools_of_suffix (expect_suffix _ _) hg)
          exact ⟨.fcall le args st1.cur.endPos, st1.expect .RPAREN,
            by simp only [he],
            (expect_suffix _ _).trans (hs.trans (expect_suffix _ _))⟩
    -- parseBlock
    · intro st hg
      simp only [parseBlock]
      exact ihSL [] st.cur.pos st hg
    -- stmtLoop
    · intro acc sp st hg
      simp only [stmtLoop]
      split
      · exact ⟨_, st, rfl, List.suffix_refl _⟩
      · obtain ⟨s, st2, he, hs⟩ := ihPS st hg
        have hs3 : (if st2.toks.length = st.toks.length then st2.advance
            else st2).toks <:+ st.toks := by
          split
          · exact (advance_suffix st2).trans hs
          · exact hs
        obtain ⟨r, st4, he2, hs2⟩ :=
          ihSL (acc ++ [s]) sp _ (goodBools_of_suffix hs3 hg)
        exact ⟨r, st4, by simp only [he, he2], hs2.trans hs3⟩
    -- parseStatement
    · intro st hg
      simp only [parseStatement]
      split
      · exact ihLS st hg
      · obtain ⟨e, st1, he, hs⟩ := ihE LOWEST st hg
        simp only [he]
        split
        · obtain ⟨exps, st2, he2, hs2⟩ := ihEL st1.advance
            (goodBools_of_suffix ((advance_suffix st1).trans hs) hg)
          exact ⟨.assign [e] exps, st2, by simp only [he2],
            hs2.trans ((advance_suffix st1).trans hs)⟩
        · exact ⟨_, st1, rfl, hs⟩
    -- parseLocalStatement
    · intro st hg
      simp only [parseLocalStatement]
      obtain ⟨names, st1, he, hs⟩ := ihNL st.advance
        (goodBools_of_suffix (advance_suffix st) hg)
      have hs1 : st1.toks <:+ st.toks := hs.trans (advance_suffix st)
      simp only [he]
      split
      · obtain ⟨exps, st2, he2, hs2⟩ := ihEL st1.advance
          (goodBools_of_suffix ((advance_suffix st1).trans hs1) hg)
        exact ⟨.localStmt names exps st.cur.pos, st2, by simp only [he2],
          hs2.trans ((advance_suffix st1).trans hs1)⟩
      · exact ⟨_, st1, rfl, hs1⟩

theorem boolTokOk_keyword (w : String) (p : Nat) :
    boolTokOk ⟨keywordLookup w, w, p⟩ = true := by
  unfold keywordLookup
  split <;> simp_all [boolTokOk] <;> decide

theorem lexLoop_boolTokOk :
    ∀ (fuel : Nat) (cs : List Char) (pos : Nat),
      ∀ t ∈ lexLoop fuel cs pos, boolTokOk t = true := by
  intro fuel
  induction fuel with
  | zero => intro cs pos t ht; simp [lexLoop] at ht
  | succ fuel ih =>
    intro cs pos t ht
    cases cs with
    | nil => simp [lexLoop] at ht
    | cons c rest =>
      simp only [lexLoop] at ht
      repeat' split at ht
      all_goals (
        first
        | exact ih _ _ t ht
        | (rcases List.mem_cons.mp ht with h | h
           · subst h
             first
             | rfl
             | exact boolTokOk_keyword _ _
           · exact ih _ _ t h))

theorem tokenize_goodBools (s : String) : goodBools ⟨tokenize s, []⟩ :=
  fun t ht => lexLoop_boolTokOk _ _ _ t ht

/-- C5 amended: parsing never panics for any tokenized source buffer —
both the full statement-level parse and the expression parser return
normally with a result and diagnostics — and more generally for every
token stream whose boolean-literal tokens carry text accepted by
`strconv.ParseBool`; the boolean-literal conversion error path itself,
however, panics rather than recording a diagnostic (see the
counterexample), it is merely unreachable from lexer-produced input. -/
theorem expression_parser_no_panic :
    (∀ (s : String) (fuel : Nat),
      ∃ b st', parseBlock fuel ⟨tokenize s, []⟩ = .ok (b, st')) ∧
    (∀ (s : String) (fuel prec : Nat),
      ∃ r st', parseExpression fuel prec ⟨tokenize s, []⟩ =
        .ok (r, st')) ∧
    (∀ (fuel prec : Nat) (st : PState), goodBools st →
      ∃ r st', parseExpression fuel prec st = .ok (r, st')) := by
  refine ⟨?_, ?_, ?_⟩
  · intro s fuel
    obtain ⟨b, st', he, _⟩ :=
      (parser_total fuel).2.2.2.2.2.2.2.2.2.2.2.2.2.2.2.1
        ⟨tokenize s, []⟩ (tokenize_goodBools s)
    exact ⟨b, st', he⟩
  · intro s fuel prec
    obtain ⟨r, st', he, _⟩ :=
      (parser_total fuel).1 prec ⟨tokenize s, []⟩ (tokenize_goodBools s)
    exact ⟨r, st', he⟩
  · intro fuel prec st hg
    obtain ⟨r, st', he, _⟩ := (parser_total fuel).1 prec st hg
    exact ⟨r, st', he⟩

/-- C5 witness: the no-panic theorem applied to a valid boolean-literal
token stream. -/
theorem expression_parser_no_panic_witness :
    ∃ r st',
      parseExpression 8 1 ⟨[⟨.TRUE, "true", 0⟩], []⟩ = .ok (r, st') :=
  expression_parser_no_panic.2.2 8 1 ⟨[⟨.TRUE, "true", 0⟩], []⟩
    (by intro t ht
        rw [List.mem_singleton] at ht
        subst ht
        decide)

/-- C5 counterexample: the boolean-literal conversion error path does
not record a diagnostic — it panics (a `TRUE` token whose literal text
`strconv.ParseBool` rejects escapes the parse as an error). -/
theorem boolean_conversion_panics :
    parseExpression 8 1 ⟨[⟨.TRUE, "maybe", 0⟩], []⟩ =
      .error "panic: ParseBool: parsing maybe" := rfl
